import Mathlib

/-!
A shallow embedding of the core of the ain-blockchain node: the block store
(`blockchain.js`), the node state reconstructor (`node/index.js`) and the
consensus engine (`consensus.js`), together with theorems about their
operations.

Machine numbers of the JavaScript source are modelled as `Int` (block
numbers, nonces) and `Nat` (stakes, rounds); the floating-point sample of
the proposer-election PRNG is modelled as a rational in `[0, 1)` supplied
by an abstract deterministic generator `String → ℚ`.
-/

namespace Ain

/-- A transaction, restricted to the fields the core reads: the sender
address and the nonce (`-1` marks a non-nonced transaction). -/
structure Transaction where
  address : String
  nonce : Int
deriving Repr, DecidableEq

/-- A block, restricted to the fields the core reads. -/
structure Block where
  number : Int
  hash : String
  last_hash : String
  transactions : List Transaction
deriving Repr, DecidableEq

/-- Modelled from the spec: the mutable key/value database is referenced only
through `executeTransactionList` / `setDbToSnapshot`; it is modelled as the
ordered log of transactions applied to it, `executeTransactionList` being
list append. -/
abbrev Db := List Transaction

/-- Modelled from the spec: `DB.executeTransactionList` applies each
transaction of the list, in order, exactly once. -/
def Db.executeTransactionList (db : Db) (txs : List Transaction) : Db :=
  db ++ txs

/-- The block store state of `blockchain.js`: the in-memory chain window, the
snapshot (backup) db receiving aged-out blocks, and the sync latch. -/
structure BlockchainState where
  chain : List Block
  backupDb : Db
  syncedAfterStartup : Bool
deriving Repr, DecidableEq

/-- `Blockchain.lastBlock`: `null` when the chain is empty, else the last
element of the in-memory chain. -/
def lastBlock (bc : BlockchainState) : Option Block :=
  bc.chain.getLast?

/-- `Blockchain.lastBlockNumber`: `-1` when there is no last block. -/
def lastBlockNumber (bc : BlockchainState) : Int :=
  match lastBlock bc with
  | none => -1
  | some b => b.number

/-- The `while (this.chain.length > 10)` loop of `addNewBlock`: shift the
oldest block out of the window and apply its transactions to the snapshot
db, until the window holds at most 10 blocks. -/
def shiftWhile : List Block → Db → List Block × Db
  | [], db => ([], db)
  | b :: rest, db =>
    if (b :: rest).length > 10 then
      shiftWhile rest (Db.executeTransactionList db b.transactions)
    else (b :: rest, db)

/-- `Blockchain.addNewBlock`: reject a missing block or a block whose number
is not `lastBlockNumber + 1`; otherwise push it, age out blocks beyond the
10-block window into the snapshot db, and report success. (`writeChain`,
pure file I/O, is not modelled.) -/
def addNewBlock (bc : BlockchainState) (block : Option Block) :
    BlockchainState × Bool :=
  match block with
  | none => (bc, false)
  | some b =>
    if b.number ≠ lastBlockNumber bc + 1 then (bc, false)
    else
      let p := shiftWhile (bc.chain ++ [b]) bc.backupDb
      ({ bc with chain := p.1, backupDb := p.2 }, true)

/-- The loop body of `Blockchain.isValidChainSubsection`, checking each block
against its predecessor. `validateHashes` is the out-of-scope block-level
integrity check, passed in as a parameter. -/
def validSubsectionFrom (validateHashes : Block → Bool) :
    Block → List Block → Bool
  | _, [] => true
  | prev, b :: rest =>
    (b.last_hash == prev.hash && validateHashes b) &&
      validSubsectionFrom validateHashes b rest

/-- `Blockchain.isValidChainSubsection`: adjacent blocks chain by hash and
every non-initial block passes `validateHashes`. -/
def isValidChainSubsection (validateHashes : Block → Bool)
    (sub : List Block) : Bool :=
  match sub with
  | [] => true
  | b :: rest => validSubsectionFrom validateHashes b rest

/-- The append loop at the end of `Blockchain.merge`: add each block through
`addNewBlock`; the first failure aborts, keeping the blocks added so far. -/
def addAll (bc : BlockchainState) : List Block → BlockchainState × Bool
  | [] => (bc, true)
  | b :: rest =>
    let p := addNewBlock bc (some b)
    if p.2 then addAll p.1 rest else (p.1, false)

/-- The ternary `this.lastBlockNumber() >= 0 ? this.lastBlock().hash : null`
of `Blockchain.merge`. -/
def lastHashOpt (bc : BlockchainState) : Option String :=
  match lastBlock bc with
  | none => none
  | some b => if b.number ≥ 0 then some b.hash else none

/-- `Blockchain.merge`: reject an empty section (latching the sync flag on a
first attempt), a section whose last number is below the local last number,
one at the same number (again latching the sync flag), a fork, a non-genesis
cold-start head, or an invalid subsection; otherwise append every block
(skipping the first when not cold-starting). -/
def merge (validateHashes : Block → Bool) (bc : BlockchainState)
    (sub : List Block) : BlockchainState × Bool :=
  match sub.getLast? with
  | none =>
    (if bc.syncedAfterStartup then bc
     else { bc with syncedAfterStartup := true }, false)
  | some lb =>
    if lb.number < lastBlockNumber bc then (bc, false)
    else if lb.number = lastBlockNumber bc then
      (if bc.syncedAfterStartup then bc
       else { bc with syncedAfterStartup := true }, false)
    else
      match sub with
      | [] => (bc, false)
      | first :: restSub =>
        match lastHashOpt bc with
        | some h =>
          if first.hash ≠ h then (bc, false)
          else if isValidChainSubsection validateHashes sub = false then
            (bc, false)
          else addAll bc restSub
        | none =>
          if first.last_hash ≠ "" then (bc, false)
          else if isValidChainSubsection validateHashes sub = false then
            (bc, false)
          else addAll bc (first :: restSub)

/-- `CHAIN_SUBSECT_LENGTH` of `blockchain.js`. -/
def CHAIN_SUBSECT_LENGTH : Int := 20

/-- `Blockchain.getBlockFiles(from, to)`: the persisted block files whose
numbers lie in `[from, to)`, naturally sorted (the file name encodes the
block number). The persisted file set is modelled as the list `files` of
blocks already loaded from disk. -/
def getBlockFiles (files : List Block) (lo hi : Int) : List Block :=
  List.insertionSort (fun a b => a.number ≤ b.number)
    (files.filter (fun b => lo ≤ b.number && b.number < hi))

/-- The fork-rejection guard of `Blockchain.requestBlockchainSection`: files
exist, they extend past the requester's number, and the first file does not
match the requester's block. The filename containment test
`blockFiles[0].indexOf(Block.getFileName(refBlock)) < 0` is modelled through
the number and hash the file name encodes. -/
def sectionRejectGuard (blockFiles : List Block) (refBlockNumber : Int)
    (refBlock : Option Block) : Bool :=
  blockFiles.length > 0 &&
  (match blockFiles.getLast? with
   | some l => l.number > refBlockNumber
   | none => false) &&
  (match refBlock, blockFiles.head? with
   | some r, some f => !(f.number == r.number && f.hash == r.hash)
   | _, _ => false)

/-- The ternary `refBlock ? refBlock.number : 0` of
`Blockchain.requestBlockchainSection`. -/
def refNumberOf (refBlock : Option Block) : Int :=
  match refBlock with
  | some r => r.number
  | none => 0

/-- `Blockchain.requestBlockchainSection`. The JavaScript compares
`refBlockHash === this.lastBlock().hash` without guarding against an empty
chain, so an empty chain throws a `TypeError` (modelled as `Except.error`);
`return;` / `return null` are both modelled as `.ok none`. -/
def requestBlockchainSection (files : List Block) (bc : BlockchainState)
    (refBlock : Option Block) : Except String (Option (List Block)) :=
  let refBlockNumber : Int := refNumberOf refBlock
  let blockFiles := getBlockFiles files refBlockNumber
      (refBlockNumber + CHAIN_SUBSECT_LENGTH)
  if sectionRejectGuard blockFiles refBlockNumber refBlock then
    .ok none
  else
    let refBlockHash : Option String := refBlock.map (·.hash)
    match lastBlock bc with
    | none => .error "TypeError: Cannot read property hash of null"
    | some lb =>
      if refBlockHash = some lb.hash then .ok (some [lb])
      else if blockFiles.length > 0 then .ok (some blockFiles)
      else .ok none

/-! ### Node state reconstructor (`node/index.js`) -/

/-- Modelled from the spec: `ainUtil.areSameAddresses` compares the two
addresses for equality. -/
def areSameAddresses (a b : String) : Bool :=
  a == b

/-- The inner loop of `Node.getNonce`: scan a block's transactions from the
last to the first and return the nonce of the first transaction whose
address matches the local account and whose nonce is `> -1`. -/
def blockLastNonce (addr : String) (txs : List Transaction) : Option Int :=
  (txs.reverse.find?
    (fun t => areSameAddresses t.address addr && t.nonce > -1)).map (·.nonce)

/-- `Node.getNonce`: scan the in-memory chain from the newest block to the
oldest; the first block containing a matching transaction yields that
transaction's nonce plus one; with no match anywhere the nonce is `0`. -/
def getNonce (addr : String) (chain : List Block) : Int :=
  match chain.reverse.findSome? (fun b => blockLastNonce addr b.transactions) with
  | some v => v + 1
  | none => 0

/-- The transaction pool, restricted to what the core reads: the pool's
transactions and the per-address nonce trackers. -/
structure TxPool where
  txs : List Transaction
  nonceTracker : List (String × Int)
deriving Repr, DecidableEq

/-- Modelled from the spec: `TransactionPool.getValidTransactions` returns
the currently-valid pool transactions; the validity filter is out of scope
and the result is modelled as the pool's transaction list. -/
def TxPool.getValidTransactions (tp : TxPool) : List Transaction :=
  tp.txs

/-- Modelled from the spec: `TransactionPool.updateNonceTrackers` records the
nonces of the executed transactions in the pool's nonce trackers; it does
not touch the pool's transaction list. -/
def TxPool.updateNonceTrackers (tp : TxPool) (txs : List Transaction) :
    TxPool :=
  { tp with
    nonceTracker := txs.foldl (fun m t => (t.address, t.nonce) :: m)
      tp.nonceTracker }

/-- The node state of `node/index.js`: the block store, the transaction pool
and the live db. -/
structure NodeState where
  bc : BlockchainState
  tp : TxPool
  db : Db
deriving Repr, DecidableEq

/-- `Node.executeChainOnDb`: for each in-memory block, in order, execute its
transactions on the live db and update the pool's nonce trackers. -/
def executeChainOnDb (n : NodeState) : NodeState :=
  n.bc.chain.foldl
    (fun st blk =>
      { st with
        db := st.db.executeTransactionList blk.transactions,
        tp := st.tp.updateNonceTrackers blk.transactions })
    n

/-- `Node.reconstruct`: copy the snapshot db into the live db
(`setDbToSnapshot`), replay every in-memory block's transactions in order
(`executeChainOnDb`), then replay the currently-valid pool transactions. -/
def reconstruct (n : NodeState) : NodeState :=
  let n1 := { n with db := n.bc.backupDb }
  let n2 := executeChainOnDb n1
  { n2 with db := n2.db.executeTransactionList n2.tp.getValidTransactions }

/-! ### Consensus engine (`consensus.js`) -/

/-- `validators[addr]` — the stake recorded for an address in the validator
map (a JavaScript object, modelled as an association list). -/
def stakeOf (vs : List (String × Nat)) (a : String) : Nat :=
  (vs.lookup a).getD 0

/-- `Object.keys(validators).sort()` — the validator addresses in ascending
lexicographic order. -/
def sortedAddrs (vs : List (String × Nat)) : List String :=
  List.insertionSort (· ≤ ·) (vs.map Prod.fst)

/-- The cumulative walk of `Consensus.selectProposer`: accumulate the stakes
of the sorted addresses and return the first address whose cumulative stake
strictly exceeds the target. -/
def walk (vs : List (String × Nat)) (target : ℚ) :
    List String → Nat → Option String
  | [], _ => none
  | a :: rest, cumulative =>
    let c := cumulative + stakeOf vs a
    if target < (c : ℚ) then some a else walk vs target rest c

/-- The number of `cumulative > targetValue` comparisons the walk performs
before returning. -/
def walkSteps (vs : List (String × Nat)) (target : ℚ) :
    List String → Nat → Nat
  | [], _ => 0
  | a :: rest, cumulative =>
    let c := cumulative + stakeOf vs a
    if target < (c : ℚ) then 1 else 1 + walkSteps vs target rest c

/-- `Consensus.selectProposer`, as a function of the validator set, the seed
block's hash and the round; `prng` is the deterministic string-seeded PRNG
(`seedrandom`), its one sample modelled as a rational. An absent or empty
validator set yields `none`. -/
def selectProposer (vs : List (String × Nat)) (seedHash : String)
    (round : Nat) (prng : String → ℚ) : Option String :=
  if vs.isEmpty then none
  else
    let seed := seedHash ++ toString round
    let totalAtStake := (vs.map Prod.snd).sum
    let targetValue := prng seed * (totalAtStake : ℚ)
    walk vs targetValue (sortedAddrs vs) 0

/-- The cumulative stake of the first `i + 1` sorted addresses. -/
def cumulativeAt (vs : List (String × Nat)) (addrs : List String)
    (i : Nat) : Nat :=
  ((addrs.take (i + 1)).map (stakeOf vs)).sum

/-- The spec's wording of proposer selection: sort the addresses, draw one
sample `r` from the PRNG seeded with the hash concatenated with the decimal
round, set `target = r * total`, and take the first index in sorted order
whose cumulative stake strictly exceeds the target. -/
def selectProposerSpec (vs : List (String × Nat)) (seedHash : String)
    (round : Nat) (prng : String → ℚ) : Option String :=
  if vs.isEmpty then none
  else
    let addrs := sortedAddrs vs
    let target := prng (seedHash ++ toString round) * ((vs.map Prod.snd).sum : ℚ)
    ((List.range addrs.length).find?
      (fun i => target < (cumulativeAt vs addrs i : ℚ))).bind
      (fun i => addrs[i]?)

/-- `ConsensusStatus` of `consensus/constants.js`. -/
inductive ConsensusStatus
  | starting
  | initialized
  | running
  | stopped
deriving Repr, DecidableEq

/-- The type tag of a consensus message; `PROPOSE` is the only type the
engine accepts. -/
inductive MsgType
  | propose
  | other
deriving Repr, DecidableEq

/-- A consensus message `{ value: Block, type: ... }`. -/
structure ConsensusMsg where
  type : MsgType
  value : Option Block
deriving Repr, DecidableEq

/-- The engine's consensus state (`this.status` and `this.state`). -/
structure ConsState where
  status : ConsensusStatus
  number : Int
  round : Nat
  proposer : Option String
deriving Repr, DecidableEq

/-- An outbound call the engine makes while handling a message: the catch-up
request, the commit of an accepted proposal, and the re-broadcast. -/
inductive ServerAction
  | requestChainSubsection (b : Option Block)
  | commitBlock (b : Block)
  | broadcast (m : ConsensusMsg)
deriving Repr, DecidableEq

/-- `Consensus.handleConsensusMessage`: drop everything unless RUNNING, of
type `PROPOSE` and carrying a value; for a number below the current state
number drop silently; for a number above it clear `syncedAfterStartup` and
request a chain subsection from the last block; at the current number,
commit and re-broadcast when `checkProposal` holds. `checkProposal` wraps
the out-of-scope `Block.validateProposedBlock` and the proposer equality
check, passed in as a predicate. -/
def handleConsensusMessage (checkProposal : Block → Bool) (st : ConsState)
    (bc : BlockchainState) (msg : ConsensusMsg) :
    ConsState × BlockchainState × List ServerAction :=
  if st.status ≠ ConsensusStatus.running then (st, bc, [])
  else if msg.type ≠ MsgType.propose then (st, bc, [])
  else
    match msg.value with
    | none => (st, bc, [])
    | some b =>
      if b.number ≠ st.number then
        if b.number > st.number then
          (st, { bc with syncedAfterStartup := false },
           [ServerAction.requestChainSubsection (lastBlock bc)])
        else (st, bc, [])
      else if checkProposal b then
        (st, bc, [ServerAction.commitBlock b, ServerAction.broadcast msg])
      else (st, bc, [])

/-- A timer key `{ number, round }`. -/
structure TimeoutInfo where
  number : Int
  round : Int
deriving Repr, DecidableEq

/-- Strict lexicographic order on timer keys, as compared by
`Consensus.scheduleTimeout`. -/
def timeoutLt (a b : TimeoutInfo) : Prop :=
  a.number < b.number ∨ (a.number = b.number ∧ a.round < b.round)

instance (a b : TimeoutInfo) : Decidable (timeoutLt a b) := by
  unfold timeoutLt
  infer_instance

/-- `Consensus.scheduleTimeout`, modelled on the armed timer key: with a
timer armed, a strictly lexicographically smaller new key is ignored;
otherwise the old timer is cancelled and the new key installed. -/
def scheduleTimeout (cur : Option TimeoutInfo) (n : TimeoutInfo) :
    Option TimeoutInfo :=
  match cur with
  | some ti => if timeoutLt n ti then some ti else some n
  | none => some n

/-- The claim's wording of the nonce computation: one plus the maximum nonce
over all transactions in the chain whose address matches the local account
and whose nonce is at least `0`, or `0` with no such transaction. -/
def specNonce (addr : String) (chain : List Block) : Int :=
  let ns := ((chain.flatMap (·.transactions)).filter
    (fun t => areSameAddresses t.address addr && t.nonce ≥ 0)).map (·.nonce)
  if ns.isEmpty then 0 else 1 + ns.foldl max (-1)

/-- The most recent transaction in the chain (all blocks' transactions in
chain order, scanned from the end) whose address matches the local account
and whose nonce is `> -1`. -/
def latestMatch (addr : String) (chain : List Block) : Option Transaction :=
  (chain.flatMap (·.transactions)).reverse.find?
    (fun t => areSameAddresses t.address addr && t.nonce > -1)

/-! ## Theorems -/

/-- C2 (counterexample): `addNewBlock` accepts a block whose number is
`lastBlockNumber + 1` but whose `last_hash` differs from the previous last
block's hash — acceptance through `addNewBlock` does not guarantee
`b.last_hash = prev.hash`. -/
theorem addNewBlock_accepts_wrong_last_hash :
    (addNewBlock
      { chain := [{ number := 0, hash := "g", last_hash := "",
                    transactions := [] }],
        backupDb := [], syncedAfterStartup := false }
      (some { number := 1, hash := "h1", last_hash := "x",
              transactions := [] })).2 = true ∧
    (addNewBlock
      { chain := [{ number := 0, hash := "g", last_hash := "",
                    transactions := [] }],
        backupDb := [], syncedAfterStartup := false }
      (some { number := 1, hash := "h1", last_hash := "x",
              transactions := [] })).1.chain.getLast? =
      some { number := 1, hash := "h1", last_hash := "x",
             transactions := [] } ∧
    ("x" : String) ≠ "g" := by
  decide

/-- C2 (amended): every block accepted through `addNewBlock` has number
`lastBlockNumber + 1`, and `addNewBlock` returns `false` on a missing block
or a number mismatch; `addNewBlock` itself does not constrain `last_hash`. -/
theorem addNewBlock_number_contract (bc : BlockchainState) (b : Block) :
    (addNewBlock bc none).2 = false ∧
    (b.number ≠ lastBlockNumber bc + 1 →
      (addNewBlock bc (some b)).2 = false) ∧
    ((addNewBlock bc (some b)).2 = true →
      b.number = lastBlockNumber bc + 1) := by
  refine ⟨rfl, fun h => by simp [addNewBlock, h], fun h => ?_⟩
  by_contra hne
  simp [addNewBlock, hne] at h

/-- Witness for `addNewBlock_number_contract` at concrete inputs. -/
theorem addNewBlock_number_contract_witness :
    (addNewBlock
      { chain := [{ number := 0, hash := "g", last_hash := "",
                    transactions := [] }],
        backupDb := [], syncedAfterStartup := false }
      (some { number := 5, hash := "h5", last_hash := "g",
              transactions := [] })).2 = false ∧
    ({ number := 1, hash := "h1", last_hash := "g",
       transactions := [] } : Block).number =
      lastBlockNumber
        { chain := [{ number := 0, hash := "g", last_hash := "",
                      transactions := [] }],
          backupDb := [], syncedAfterStartup := false } + 1 :=
  ⟨(addNewBlock_number_contract _ _).2.1 (by decide),
   (addNewBlock_number_contract _
     { number := 1, hash := "h1", last_hash := "g",
       transactions := [] }).2.2 (by decide)⟩

/-- C3 (counterexample): a received section whose last number is strictly
below the local last number is rejected, but the node is NOT flagged as
synced after startup — the sync latch is only set in the equal-number (and
empty-section) branches of `merge`. -/
theorem merge_lower_number_no_sync_latch :
    (merge (fun _ => true)
      { chain := [{ number := 5, hash := "h5", last_hash := "p",
                    transactions := [] }],
        backupDb := [], syncedAfterStartup := false }
      [{ number := 3, hash := "h3", last_hash := "q",
         transactions := [] }]).2 = false ∧
    (merge (fun _ => true)
      { chain := [{ number := 5, hash := "h5", last_hash := "p",
                    transactions := [] }],
        backupDb := [], syncedAfterStartup := false }
      [{ number := 3, hash := "h3", last_hash := "q",
         transactions := [] }]).1.syncedAfterStartup = false := by
  decide

/-- C3 (amended): a section whose last number is strictly below the local
last number is rejected with the state unchanged (in particular the sync
latch is untouched); a section whose last number equals the local last
number is rejected and the node is flagged as synced after startup. -/
theorem merge_low_or_equal_rejects (vH : Block → Bool)
    (bc : BlockchainState) (sub : List Block) (lb : Block)
    (hlast : sub.getLast? = some lb) :
    (lb.number < lastBlockNumber bc → merge vH bc sub = (bc, false)) ∧
    (lb.number = lastBlockNumber bc →
      (merge vH bc sub).2 = false ∧
      (merge vH bc sub).1.chain = bc.chain ∧
      (merge vH bc sub).1.syncedAfterStartup = true) := by
  constructor
  · intro h
    simp [merge, hlast, h]
  · intro h
    have hnlt : ¬ lb.number < lastBlockNumber bc := by omega
    by_cases hs : bc.syncedAfterStartup <;>
      simp [merge, hlast, h, hnlt, hs]

/-- Witness for `merge_low_or_equal_rejects` at concrete inputs. -/
theorem merge_low_or_equal_rejects_witness :
    merge (fun _ => true)
      { chain := [{ number := 5, hash := "h5", last_hash := "p",
                    transactions := [] }],
        backupDb := [], syncedAfterStartup := false }
      [{ number := 3, hash := "h3", last_hash := "q",
         transactions := [] }] =
      ({ chain := [{ number := 5, hash := "h5", last_hash := "p",
                     transactions := [] }],
         backupDb := [], syncedAfterStartup := false }, false) ∧
    ((merge (fun _ => true)
      { chain := [{ number := 5, hash := "h5", last_hash := "p",
                    transactions := [] }],
        backupDb := [], syncedAfterStartup := false }
      [{ number := 5, hash := "h5", last_hash := "q",
         transactions := [] }]).2 = false ∧
     (merge (fun _ => true)
      { chain := [{ number := 5, hash := "h5", last_hash := "p",
                    transactions := [] }],
        backupDb := [], syncedAfterStartup := false }
      [{ number := 5, hash := "h5", last_hash := "q",
         transactions := [] }]).1.chain =
       [{ number := 5, hash := "h5", last_hash := "p",
          transactions := [] }] ∧
     (merge (fun _ => true)
      { chain := [{ number := 5, hash := "h5", last_hash := "p",
                    transactions := [] }],
        backupDb := [], syncedAfterStartup := false }
      [{ number := 5, hash := "h5", last_hash := "q",
         transactions := [] }]).1.syncedAfterStartup = true) :=
  ⟨(merge_low_or_equal_rejects (fun _ => true)
      { chain := [{ number := 5, hash := "h5", last_hash := "p",
                    transactions := [] }],
        backupDb := [], syncedAfterStartup := false }
      [{ number := 3, hash := "h3", last_hash := "q", transactions := [] }]
      { number := 3, hash := "h3", last_hash := "q", transactions := [] }
      (by decide)).1 (by decide),
   (merge_low_or_equal_rejects (fun _ => true)
      { chain := [{ number := 5, hash := "h5", last_hash := "p",
                    transactions := [] }],
        backupDb := [], syncedAfterStartup := false }
      [{ number := 5, hash := "h5", last_hash := "q", transactions := [] }]
      { number := 5, hash := "h5", last_hash := "q", transactions := [] }
      (by decide)).2 (by decide)⟩

/-- C7: `scheduleTimeout` is monotonic on the armed timer key: while `(n, r)`
is armed, a strictly lexicographically smaller new key is ignored and the
armed timer is unchanged; otherwise the new key is installed; in either case
the resulting armed key is never lexicographically below the old one. -/
theorem scheduleTimeout_monotone (cur : Option TimeoutInfo)
    (n ti : TimeoutInfo) (h : cur = some ti) :
    (timeoutLt n ti → scheduleTimeout cur n = some ti) ∧
    (¬ timeoutLt n ti → scheduleTimeout cur n = some n) ∧
    (∀ t', scheduleTimeout cur n = some t' → ¬ timeoutLt t' ti) := by
  subst h
  refine ⟨fun hlt => by simp [scheduleTimeout, hlt],
          fun hlt => by simp [scheduleTimeout, hlt], ?_⟩
  intro t' ht'
  by_cases hlt : timeoutLt n ti
  · simp [scheduleTimeout, hlt] at ht'
    subst ht'
    simp only [timeoutLt]
    omega
  · simp [scheduleTimeout, hlt] at ht'
    subst ht'
    exact hlt

/-- Witness for `scheduleTimeout_monotone` at concrete inputs: a smaller
round for the same number is ignored, a larger number supersedes. -/
theorem scheduleTimeout_monotone_witness :
    scheduleTimeout (some { number := 2, round := 3 })
      { number := 2, round := 2 } = some { number := 2, round := 3 } ∧
    scheduleTimeout (some { number := 2, round := 3 })
      { number := 3, round := 0 } = some { number := 3, round := 0 } :=
  ⟨(scheduleTimeout_monotone (some { number := 2, round := 3 })
      { number := 2, round := 2 } { number := 2, round := 3 } rfl).1
      (by decide),
   (scheduleTimeout_monotone (some { number := 2, round := 3 })
      { number := 3, round := 0 } { number := 2, round := 3 } rfl).2.1
      (by decide)⟩

/-- `findSome?` of a one-element list is the function applied to it. -/
theorem findSome?_singleton {α β : Type} (f : α → Option β) (a : α) :
    [a].findSome? f = f a := by
  cases h : f a <;> simp [List.findSome?_cons, h]

/-- The per-block reverse scan of `getNonce` composes into one reverse scan
of all the chain's transactions. -/
theorem findSome_eq_latestMatch (addr : String) (chain : List Block) :
    chain.reverse.findSome? (fun b => blockLastNonce addr b.transactions)
      = (latestMatch addr chain).map (·.nonce) := by
  induction chain with
  | nil => rfl
  | cons b rest ih =>
    have hlm : latestMatch addr (b :: rest)
        = ((rest.flatMap (·.transactions)).reverse
            ++ b.transactions.reverse).find?
          (fun t => areSameAddresses t.address addr && t.nonce > -1) := by
      unfold latestMatch
      rw [List.flatMap_cons, List.reverse_append]
    rw [List.reverse_cons, List.findSome?_append, findSome?_singleton, ih,
        hlm, List.find?_append, Option.map_or']
    rfl

/-- C4 (amended): after `Node.init`, the local nonce equals one plus the
nonce of the most recent transaction in the chain whose address matches the
local account and whose nonce is at least 0 (the last such transaction in
chain order), or `0` if none exists — not one plus the maximum such nonce. -/
theorem getNonce_eq_latestMatch (addr : String) (chain : List Block) :
    getNonce addr chain =
      match latestMatch addr chain with
      | some t => t.nonce + 1
      | none => 0 := by
  unfold getNonce
  rw [findSome_eq_latestMatch]
  cases latestMatch addr chain <;> rfl

/-- C4 (counterexample): with one block holding two matching transactions of
nonces `5` then `3`, the code computes `3 + 1 = 4` (most recent match) while
the claim's `1 + max` computes `6`. -/
theorem getNonce_ne_specNonce :
    getNonce "a"
      [{ number := 0, hash := "g", last_hash := "",
         transactions := [{ address := "a", nonce := 5 },
                          { address := "a", nonce := 3 }] }] = 4 ∧
    specNonce "a"
      [{ number := 0, hash := "g", last_hash := "",
         transactions := [{ address := "a", nonce := 5 },
                          { address := "a", nonce := 3 }] }] = 6 ∧
    getNonce "a"
      [{ number := 0, hash := "g", last_hash := "",
         transactions := [{ address := "a", nonce := 5 },
                          { address := "a", nonce := 3 }] }] ≠
      specNonce "a"
        [{ number := 0, hash := "g", last_hash := "",
           transactions := [{ address := "a", nonce := 5 },
                            { address := "a", nonce := 3 }] }] := by
  decide

/-- The aging loop of `addNewBlock` splits the pushed chain into a shifted
prefix — whose transactions it appends to the snapshot db in order — and a
kept window of at most 10 blocks. -/
theorem shiftWhile_spec (chain : List Block) (db : Db) :
    ∃ pre, chain = pre ++ (shiftWhile chain db).1 ∧
      (shiftWhile chain db).2 = db ++ pre.flatMap (·.transactions) ∧
      (shiftWhile chain db).1.length ≤ 10 := by
  induction chain generalizing db with
  | nil =>
    exact ⟨[], by simp [shiftWhile], by simp [shiftWhile],
           by simp [shiftWhile]⟩
  | cons b rest ih =>
    by_cases h : (b :: rest).length > 10
    · obtain ⟨pre, h1, h2, h3⟩ := ih (Db.executeTransactionList db b.transactions)
      have hred : shiftWhile (b :: rest) db
          = shiftWhile rest (Db.executeTransactionList db b.transactions) := by
        rw [shiftWhile, if_pos h]
      refine ⟨b :: pre, ?_, ?_, ?_⟩
      · rw [hred, List.cons_append]
        exact congrArg (List.cons b) h1
      · rw [hred, h2]
        simp [Db.executeTransactionList, List.flatMap_cons]
      · rw [hred]
        exact h3
    · have hred : shiftWhile (b :: rest) db = (b :: rest, db) := by
        rw [shiftWhile, if_neg h]
      refine ⟨[], by rw [hred]; rfl, by rw [hred]; simp, ?_⟩
      rw [hred]
      simp only [List.length_cons]
      simp only [List.length_cons, gt_iff_lt, not_lt] at h
      omega

/-- C5: after every successful `addNewBlock` the in-memory chain holds at
most 10 blocks, and the snapshot db grows by exactly the transactions of the
shifted-out prefix, in order — each such transaction is applied exactly once
(its occurrence count grows by exactly its count in the shifted blocks). -/
theorem addNewBlock_bounds_window (bc : BlockchainState) (b : Block)
    (h : (addNewBlock bc (some b)).2 = true) :
    (addNewBlock bc (some b)).1.chain.length ≤ 10 ∧
    ∃ shifted,
      bc.chain ++ [b] = shifted ++ (addNewBlock bc (some b)).1.chain ∧
      (addNewBlock bc (some b)).1.backupDb
        = bc.backupDb ++ shifted.flatMap (·.transactions) ∧
      ∀ t : Transaction,
        (addNewBlock bc (some b)).1.backupDb.count t
          = bc.backupDb.count t
            + (shifted.flatMap (·.transactions)).count t := by
  by_cases hnum : b.number = lastBlockNumber bc + 1
  · have hred : addNewBlock bc (some b)
        = ({ bc with chain := (shiftWhile (bc.chain ++ [b]) bc.backupDb).1,
                     backupDb := (shiftWhile (bc.chain ++ [b]) bc.backupDb).2 },
           true) := by
      simp [addNewBlock, hnum]
    obtain ⟨pre, h1, h2, h3⟩ := shiftWhile_spec (bc.chain ++ [b]) bc.backupDb
    rw [hred]
    exact ⟨h3, pre, h1, h2, fun t => by rw [h2, List.count_append]⟩
  · exact absurd h (by simp [addNewBlock, hnum])

/-- Witness for `addNewBlock_bounds_window` at a concrete input. -/
theorem addNewBlock_bounds_window_witness :
    (addNewBlock
      { chain := [{ number := 0, hash := "g", last_hash := "",
                    transactions := [] }],
        backupDb := [], syncedAfterStartup := false }
      (some { number := 1, hash := "h1", last_hash := "g",
              transactions := [] })).1.chain.length ≤ 10 ∧
    ∃ shifted,
      ({ chain := [{ number := 0, hash := "g", last_hash := "",
                     transactions := [] }],
         backupDb := [], syncedAfterStartup := false } :
        BlockchainState).chain ++
          [{ number := 1, hash := "h1", last_hash := "g",
             transactions := [] }]
        = shifted ++
          (addNewBlock
            { chain := [{ number := 0, hash := "g", last_hash := "",
                          transactions := [] }],
              backupDb := [], syncedAfterStartup := false }
            (some { number := 1, hash := "h1", last_hash := "g",
                    transactions := [] })).1.chain ∧
      (addNewBlock
        { chain := [{ number := 0, hash := "g", last_hash := "",
                      transactions := [] }],
          backupDb := [], syncedAfterStartup := false }
        (some { number := 1, hash := "h1", last_hash := "g",
                transactions := [] })).1.backupDb
        = ({ chain := [{ number := 0, hash := "g", last_hash := "",
                         transactions := [] }],
             backupDb := [], syncedAfterStartup := false } :
            BlockchainState).backupDb ++ shifted.flatMap (·.transactions) ∧
      ∀ t : Transaction,
        (addNewBlock
          { chain := [{ number := 0, hash := "g", last_hash := "",
                        transactions := [] }],
            backupDb := [], syncedAfterStartup := false }
          (some { number := 1, hash := "h1", last_hash := "g",
                  transactions := [] })).1.backupDb.count t
          = ({ chain := [{ number := 0, hash := "g", last_hash := "",
                           transactions := [] }],
               backupDb := [], syncedAfterStartup := false } :
              BlockchainState).backupDb.count t
            + (shifted.flatMap (·.transactions)).count t :=
  addNewBlock_bounds_window
    { chain := [{ number := 0, hash := "g", last_hash := "",
                  transactions := [] }],
      backupDb := [], syncedAfterStartup := false }
    { number := 1, hash := "h1", last_hash := "g", transactions := [] }
    (by decide)

/-- C6: while RUNNING, a PROPOSE whose number is below the state number is
dropped with no state change and no outbound call; one whose number is above
it clears `syncedAfterStartup` and requests a chain subsection from the last
block, committing nothing; at the state number with `checkProposal` holding,
the block is committed and the message re-broadcast. -/
theorem handleConsensusMessage_number_cases (checkProposal : Block → Bool)
    (st : ConsState) (bc : BlockchainState) (msg : ConsensusMsg) (b : Block)
    (hrun : st.status = ConsensusStatus.running)
    (hty : msg.type = MsgType.propose)
    (hval : msg.value = some b) :
    (b.number < st.number →
      handleConsensusMessage checkProposal st bc msg = (st, bc, [])) ∧
    (b.number > st.number →
      handleConsensusMessage checkProposal st bc msg =
        (st, { bc with syncedAfterStartup := false },
         [ServerAction.requestChainSubsection (lastBlock bc)])) ∧
    (b.number = st.number → checkProposal b = true →
      handleConsensusMessage checkProposal st bc msg =
        (st, bc, [ServerAction.commitBlock b, ServerAction.broadcast msg])) := by
  refine ⟨fun h => ?_, fun h => ?_, fun h hcp => ?_⟩
  · have hne : b.number ≠ st.number := by omega
    have hngt : ¬ b.number > st.number := by omega
    simp [handleConsensusMessage, hrun, hty, hval, hne, hngt]
  · have hne : b.number ≠ st.number := by omega
    simp [handleConsensusMessage, hrun, hty, hval, hne, h]
  · simp [handleConsensusMessage, hrun, hty, hval, h, hcp]

/-- Witness for `handleConsensusMessage_number_cases`: a future-numbered
proposal (9 > 5) triggers catch-up, a stale one (3 < 5) is dropped. -/
theorem handleConsensusMessage_number_cases_witness :
    handleConsensusMessage (fun _ => true)
      { status := ConsensusStatus.running, number := 5, round := 0,
        proposer := none }
      { chain := [{ number := 4, hash := "h4", last_hash := "",
                    transactions := [] }],
        backupDb := [], syncedAfterStartup := true }
      { type := MsgType.propose,
        value := some { number := 9, hash := "h9", last_hash := "x",
                        transactions := [] } } =
      ({ status := ConsensusStatus.running, number := 5, round := 0,
         proposer := none },
       { chain := [{ number := 4, hash := "h4", last_hash := "",
                     transactions := [] }],
         backupDb := [], syncedAfterStartup := false },
       [ServerAction.requestChainSubsection
         (some { number := 4, hash := "h4", last_hash := "",
                 transactions := [] })]) ∧
    handleConsensusMessage (fun _ => true)
      { status := ConsensusStatus.running, number := 5, round := 0,
        proposer := none }
      { chain := [{ number := 4, hash := "h4", last_hash := "",
                    transactions := [] }],
        backupDb := [], syncedAfterStartup := true }
      { type := MsgType.propose,
        value := some { number := 3, hash := "h3", last_hash := "x",
                        transactions := [] } } =
      ({ status := ConsensusStatus.running, number := 5, round := 0,
         proposer := none },
       { chain := [{ number := 4, hash := "h4", last_hash := "",
                     transactions := [] }],
         backupDb := [], syncedAfterStartup := true },
       []) :=
  ⟨(handleConsensusMessage_number_cases (fun _ => true)
      { status := ConsensusStatus.running, number := 5, round := 0,
        proposer := none }
      { chain := [{ number := 4, hash := "h4", last_hash := "",
                    transactions := [] }],
        backupDb := [], syncedAfterStartup := true }
      { type := MsgType.propose,
        value := some { number := 9, hash := "h9", last_hash := "x",
                        transactions := [] } }
      { number := 9, hash := "h9", last_hash := "x", transactions := [] }
      rfl rfl rfl).2.1 (by decide),
   (handleConsensusMessage_number_cases (fun _ => true)
      { status := ConsensusStatus.running, number := 5, round := 0,
        proposer := none }
      { chain := [{ number := 4, hash := "h4", last_hash := "",
                    transactions := [] }],
        backupDb := [], syncedAfterStartup := true }
      { type := MsgType.propose,
        value := some { number := 3, hash := "h3", last_hash := "x",
                        transactions := [] } }
      { number := 3, hash := "h3", last_hash := "x", transactions := [] }
      rfl rfl rfl).1 (by decide)⟩

/-- The fold of `executeChainOnDb` over any block list: the block store is
untouched, the pool's transaction list is untouched, and the live db grows
by the blocks' transactions in order. -/
theorem executeChain_foldl (l : List Block) (st : NodeState) :
    ((l.foldl
      (fun s blk =>
        { s with db := s.db.executeTransactionList blk.transactions,
                 tp := s.tp.updateNonceTrackers blk.transactions }) st).bc
        = st.bc) ∧
    ((l.foldl
      (fun s blk =>
        { s with db := s.db.executeTransactionList blk.transactions,
                 tp := s.tp.updateNonceTrackers blk.transactions }) st).tp.txs
        = st.tp.txs) ∧
    ((l.foldl
      (fun s blk =>
        { s with db := s.db.executeTransactionList blk.transactions,
                 tp := s.tp.updateNonceTrackers blk.transactions }) st).db
        = st.db ++ l.flatMap (·.transactions)) := by
  induction l generalizing st with
  | nil => simp
  | cons blk rest ih =>
    simp only [List.foldl_cons]
    obtain ⟨ha, hb, hc⟩ := ih
      { st with db := st.db.executeTransactionList blk.transactions,
                tp := st.tp.updateNonceTrackers blk.transactions }
    refine ⟨ha, ?_, ?_⟩
    · rw [hb]
      rfl
    · rw [hc]
      simp [Db.executeTransactionList, List.flatMap_cons, List.append_assoc]

/-- `reconstruct` rewrites the live db to a pure function of the snapshot
db, the in-memory chain and the pool transactions, leaving the block store
and the pool's transaction list untouched. -/
theorem reconstruct_db (n : NodeState) :
    (reconstruct n).db
      = n.bc.backupDb ++ n.bc.chain.flatMap (·.transactions) ++ n.tp.txs ∧
    (reconstruct n).bc = n.bc ∧
    (reconstruct n).tp.txs = n.tp.txs := by
  unfold reconstruct executeChainOnDb TxPool.getValidTransactions
  obtain ⟨ha, hb, hc⟩ := executeChain_foldl n.bc.chain { n with db := n.bc.backupDb }
  refine ⟨?_, ha, hb⟩
  simp only [Db.executeTransactionList] at hc hb ⊢
  rw [hc, hb]

/-- C9: `reconstruct` is idempotent — with no intervening mutation, running
it twice leaves the live db with the same contents as running it once. -/
theorem reconstruct_idempotent (n : NodeState) :
    (reconstruct (reconstruct n)).db = (reconstruct n).db := by
  obtain ⟨h1, h2, h3⟩ := reconstruct_db n
  obtain ⟨g1, g2, g3⟩ := reconstruct_db (reconstruct n)
  rw [g1, h2, h3, h1]

/-- C10: on a block store with an empty in-memory chain and no matching block
files, `requestBlockchainSection` dereferences `null` while comparing the
reference hash against `this.lastBlock().hash` and throws instead of
returning null; with a non-empty chain the operation always returns
normally. -/
theorem requestBlockchainSection_empty_chain_throws
    (files : List Block) (bc : BlockchainState) (refBlock : Option Block)
    (hchain : bc.chain = [])
    (hfiles : getBlockFiles files (refNumberOf refBlock)
      (refNumberOf refBlock + CHAIN_SUBSECT_LENGTH) = []) :
    (∃ e, requestBlockchainSection files bc refBlock = Except.error e) ∧
    (∀ (fs : List Block) (bc2 : BlockchainState) (rb : Option Block),
      bc2.chain ≠ [] →
      ∃ v, requestBlockchainSection fs bc2 rb = Except.ok v) := by
  constructor
  · have hlast : lastBlock bc = none := by
      simp [lastBlock, hchain]
    refine ⟨"TypeError: Cannot read property hash of null", ?_⟩
    simp only [requestBlockchainSection, hfiles, hlast]
    simp [sectionRejectGuard]
  · intro fs bc2 rb hne
    obtain ⟨lb, hlb⟩ : ∃ lb, lastBlock bc2 = some lb := by
      unfold lastBlock
      cases hc : bc2.chain.getLast? with
      | some lb => exact ⟨lb, rfl⟩
      | none => exact absurd (List.getLast?_eq_none_iff.mp hc) hne
    simp only [requestBlockchainSection, hlb]
    split
    · exact ⟨none, rfl⟩
    · split
      · exact ⟨some [lb], rfl⟩
      · split
        · exact ⟨_, rfl⟩
        · exact ⟨none, rfl⟩

/-- Witness for `requestBlockchainSection_empty_chain_throws` at the empty
store. -/
theorem requestBlockchainSection_empty_chain_throws_witness :
    (∃ e, requestBlockchainSection []
      { chain := [], backupDb := [], syncedAfterStartup := false } none
        = Except.error e) ∧
    (∀ (fs : List Block) (bc2 : BlockchainState) (rb : Option Block),
      bc2.chain ≠ [] →
      ∃ v, requestBlockchainSection fs bc2 rb = Except.ok v) :=
  requestBlockchainSection_empty_chain_throws []
    { chain := [], backupDb := [], syncedAfterStartup := false } none
    rfl (by rfl)

/-- The cumulative walk, expressed as a search for the first index whose
cumulative stake (offset by the starting cumulative `c`) exceeds the
target. -/
theorem walk_eq_find (vs : List (String × Nat)) (target : ℚ)
    (addrs : List String) :
    ∀ c : Nat,
      walk vs target addrs c =
        ((List.range addrs.length).find?
          (fun i => decide (target <
            ((c + ((addrs.take (i + 1)).map (stakeOf vs)).sum : Nat) : ℚ)))).bind
          (fun i => addrs[i]?) := by
  induction addrs with
  | nil =>
    intro c
    simp [walk]
  | cons a rest ih =>
    intro c
    have hpred :
        ((fun i => decide (target <
            ((c + (((a :: rest).take (i + 1)).map (stakeOf vs)).sum : Nat) : ℚ)))
          ∘ Nat.succ)
        = (fun i => decide (target <
            ((c + stakeOf vs a
              + ((rest.take (i + 1)).map (stakeOf vs)).sum : Nat) : ℚ))) := by
      funext i
      simp only [Function.comp_apply, List.take_succ_cons, List.map_cons,
        List.sum_cons, Nat.add_assoc]
    by_cases hcomp : target < ((c + stakeOf vs a : Nat) : ℚ)
    · rw [walk, if_pos hcomp, List.length_cons, List.range_succ_eq_map,
          List.find?_cons_of_pos]
      · simp
      · simpa using hcomp
    · rw [walk, if_neg hcomp, ih (c + stakeOf vs a), List.length_cons,
          List.range_succ_eq_map, List.find?_cons_of_neg, List.find?_map,
          hpred]
      · cases hf : (List.range rest.length).find?
          (fun i => decide (target <
            ((c + stakeOf vs a
              + ((rest.take (i + 1)).map (stakeOf vs)).sum : Nat) : ℚ))) <;>
          simp [hf]
      · simpa using hcomp

/-- C1: `selectProposer` equals the spec's description — sort the addresses
ascending, draw one sample from the PRNG seeded with the hash concatenated
with the decimal round, scale by the total stake, and return the first
sorted address whose cumulative stake strictly exceeds the target — and two
runs on identical `(validators, seedBlock.hash, round)` return the same
address. -/
theorem selectProposer_matches_spec_deterministic
    (vs1 vs2 : List (String × Nat)) (h1 h2 : String) (r1 r2 : Nat)
    (prng : String → ℚ)
    (ev : vs1 = vs2) (eh : h1 = h2) (er : r1 = r2) :
    selectProposer vs1 h1 r1 prng = selectProposerSpec vs1 h1 r1 prng ∧
    selectProposer vs1 h1 r1 prng = selectProposer vs2 h2 r2 prng := by
  subst ev
  subst eh
  subst er
  refine ⟨?_, rfl⟩
  unfold selectProposer selectProposerSpec
  by_cases hvs : vs1.isEmpty
  · simp [hvs]
  · simp only [hvs, if_false, Bool.false_eq_true]
    rw [walk_eq_find]
    have hpred0 :
        (fun i => decide
          ((prng (h1 ++ toString r1) * ((vs1.map Prod.snd).sum : ℚ)) <
            ((0 + (((sortedAddrs vs1).take (i + 1)).map (stakeOf vs1)).sum
              : Nat) : ℚ)))
        = (fun i => decide
          ((prng (h1 ++ toString r1) * ((vs1.map Prod.snd).sum : ℚ)) <
            ((cumulativeAt vs1 (sortedAddrs vs1) i : Nat) : ℚ))) := by
      funext i
      simp only [Nat.zero_add, cumulativeAt]
    rw [hpred0]

/-- Witness for `selectProposer_matches_spec_deterministic` at a concrete
validator set. -/
theorem selectProposer_matches_spec_deterministic_witness :
    selectProposer [("a", 2), ("b", 1)] "h" 0 (fun _ => (1 : ℚ) / 2)
      = selectProposerSpec [("a", 2), ("b", 1)] "h" 0 (fun _ => (1 : ℚ) / 2) ∧
    selectProposer [("a", 2), ("b", 1)] "h" 0 (fun _ => (1 : ℚ) / 2)
      = selectProposer [("a", 2), ("b", 1)] "h" 0 (fun _ => (1 : ℚ) / 2) :=
  selectProposer_matches_spec_deterministic
    [("a", 2), ("b", 1)] [("a", 2), ("b", 1)] "h" "h" 0 0
    (fun _ => (1 : ℚ) / 2) rfl rfl rfl

/-- The walk performs at most one comparison per address. -/
theorem walkSteps_le (vs : List (String × Nat)) (target : ℚ)
    (addrs : List String) :
    ∀ c : Nat, walkSteps vs target addrs c ≤ addrs.length := by
  induction addrs with
  | nil =>
    intro c
    simp [walkSteps]
  | cons a rest ih =>
    intro c
    rw [walkSteps]
    by_cases h : target < ((c + stakeOf vs a : Nat) : ℚ)
    · rw [if_pos h]
      simp
    · rw [if_neg h]
      have := ih (c + stakeOf vs a)
      simp only [List.length_cons]
      omega

/-- If the target lies between the starting cumulative and the final
cumulative stake, the walk returns some member of the list. -/
theorem walk_mem_of_sum (vs : List (String × Nat)) (target : ℚ)
    (addrs : List String) :
    ∀ c : Nat, ((c : ℚ) ≤ target) →
      (target < (c : ℚ) + ((addrs.map (stakeOf vs)).sum : ℚ)) →
      ∃ a, walk vs target addrs c = some a ∧ a ∈ addrs := by
  induction addrs with
  | nil =>
    intro c hle hlt
    simp at hlt
    exact absurd hle (not_le.mpr hlt)
  | cons a rest ih =>
    intro c hle hlt
    by_cases h : target < ((c + stakeOf vs a : Nat) : ℚ)
    · exact ⟨a, by rw [walk, if_pos h], List.mem_cons_self a rest⟩
    · push_neg at h
      push_cast at h hlt
      obtain ⟨x, hx, hmem⟩ := ih (c + stakeOf vs a)
        (by push_cast; linarith)
        (by push_cast
            simp only [List.map_cons, List.sum_cons] at hlt
            linarith)
      refine ⟨x, ?_, List.mem_cons_of_mem a hmem⟩
      rw [walk, if_neg (by push_cast; linarith)]
      exact hx

/-- Looking a key up past a cons with a different key skips the head. -/
theorem lookup_cons_ne {k a : String} {v : Nat}
    {rest : List (String × Nat)} (h : k ≠ a) :
    ((a, v) :: rest).lookup k = rest.lookup k := by
  simp [List.lookup, beq_false_of_ne h]

/-- Every key of the association list looks up to its stored value. -/
theorem lookup_mem_of_mem_keys (vs : List (String × Nat)) (a : String)
    (h : a ∈ vs.map Prod.fst) :
    ∃ v, vs.lookup a = some v ∧ (a, v) ∈ vs := by
  induction vs with
  | nil => simp at h
  | cons p rest ih =>
    obtain ⟨k, v⟩ := p
    by_cases hak : a = k
    · subst hak
      exact ⟨v, by simp [List.lookup], List.mem_cons_self _ _⟩
    · have hmem : a ∈ rest.map Prod.fst := by
        simpa [hak] using h
      obtain ⟨w, hw, hpair⟩ := ih hmem
      exact ⟨w, by rw [lookup_cons_ne hak]; exact hw,
             List.mem_cons_of_mem _ hpair⟩

/-- With distinct keys, summing the looked-up stakes over the keys equals
summing the stored stakes. -/
theorem sum_stakeOf_keys (vs : List (String × Nat))
    (hnd : (vs.map Prod.fst).Nodup) :
    ((vs.map Prod.fst).map (stakeOf vs)).sum = (vs.map Prod.snd).sum := by
  induction vs with
  | nil => rfl
  | cons p rest ih =>
    obtain ⟨a, v⟩ := p
    simp only [List.map_cons, List.sum_cons]
    rw [List.map_cons, List.nodup_cons] at hnd
    have h1 : stakeOf ((a, v) :: rest) a = v := by
      simp [stakeOf, List.lookup]
    have h2 : (rest.map Prod.fst).map (stakeOf ((a, v) :: rest))
        = (rest.map Prod.fst).map (stakeOf rest) := by
      apply List.map_congr_left
      intro k hk
      have hka : k ≠ a := fun e => hnd.1 (e ▸ hk)
      simp [stakeOf, lookup_cons_ne hka]
    rw [h1, h2, ih hnd.2]

/-- Summing the looked-up stakes over the sorted addresses equals the total
stake. -/
theorem sum_sorted_stakes (vs : List (String × Nat))
    (hnd : (vs.map Prod.fst).Nodup) :
    ((sortedAddrs vs).map (stakeOf vs)).sum = (vs.map Prod.snd).sum := by
  have hperm : List.Perm (sortedAddrs vs) (vs.map Prod.fst) :=
    List.perm_insertionSort _ _
  rw [(hperm.map (stakeOf vs)).sum_eq, sum_stakeOf_keys vs hnd]

/-- C8: for a non-empty validator set of positive integer stakes and a PRNG
sample in `[0, 1)`, `selectProposer` returns some validator (the fallback
`return null` after the walk is unreachable) whose stake satisfies
`0 < stake(proposer) ≤ total`, and the walk performs at most `|validators|`
comparisons. -/
theorem selectProposer_returns_validator
    (vs : List (String × Nat)) (h : String) (r : Nat) (prng : String → ℚ)
    (hne : vs ≠ [])
    (hpos : ∀ p ∈ vs, 0 < p.2)
    (hnd : (vs.map Prod.fst).Nodup)
    (hr0 : 0 ≤ prng (h ++ toString r))
    (hr1 : prng (h ++ toString r) < 1) :
    ∃ a, selectProposer vs h r prng = some a ∧
      0 < stakeOf vs a ∧
      stakeOf vs a ≤ (vs.map Prod.snd).sum ∧
      walkSteps vs (prng (h ++ toString r) * ((vs.map Prod.snd).sum : ℚ))
        (sortedAddrs vs) 0 ≤ vs.length := by
  have hvs : vs.isEmpty = false := by
    cases vs with
    | nil => exact absurd rfl hne
    | cons p rest => rfl
  have htpos : 0 < (vs.map Prod.snd).sum := by
    cases vs with
    | nil => exact absurd rfl hne
    | cons p rest =>
      have hp := hpos p (List.mem_cons_self _ _)
      simp only [List.map_cons, List.sum_cons]
      omega
  have ht0 : 0 ≤ prng (h ++ toString r) * (((vs.map Prod.snd).sum : Nat) : ℚ) :=
    mul_nonneg hr0 (Nat.cast_nonneg _)
  have httot : prng (h ++ toString r) * (((vs.map Prod.snd).sum : Nat) : ℚ)
      < (((vs.map Prod.snd).sum : Nat) : ℚ) := by
    have hc : (0 : ℚ) < (((vs.map Prod.snd).sum : Nat) : ℚ) := by
      exact_mod_cast htpos
    calc prng (h ++ toString r) * (((vs.map Prod.snd).sum : Nat) : ℚ)
        < 1 * (((vs.map Prod.snd).sum : Nat) : ℚ) :=
          mul_lt_mul_of_pos_right hr1 hc
      _ = (((vs.map Prod.snd).sum : Nat) : ℚ) := one_mul _
  have hsum := sum_sorted_stakes vs hnd
  obtain ⟨a, hwalk, hmem⟩ := walk_mem_of_sum vs
    (prng (h ++ toString r) * (((vs.map Prod.snd).sum : Nat) : ℚ))
    (sortedAddrs vs) 0
    (by simpa using ht0)
    (by rw [hsum]; simpa using httot)
  have hmemkeys : a ∈ vs.map Prod.fst := by
    have : a ∈ (vs.map Prod.fst).insertionSort (· ≤ ·) := hmem
    exact (List.mem_insertionSort _).mp this
  obtain ⟨v, hlook, hpair⟩ := lookup_mem_of_mem_keys vs a hmemkeys
  have hstake : stakeOf vs a = v := by
    simp [stakeOf, hlook]
  refine ⟨a, ?_, ?_, ?_, ?_⟩
  · unfold selectProposer
    simp only [hvs, Bool.false_eq_true, if_false]
    exact hwalk
  · rw [hstake]
    exact hpos (a, v) hpair
  · rw [hstake]
    exact List.le_sum_of_mem (List.mem_map_of_mem Prod.snd hpair)
  · have hle := walkSteps_le vs
      (prng (h ++ toString r) * ((vs.map Prod.snd).sum : ℚ))
      (sortedAddrs vs) 0
    have hlen : (sortedAddrs vs).length = vs.length := by
      unfold sortedAddrs
      rw [List.length_insertionSort, List.length_map]
    omega

/-- Witness for `selectProposer_returns_validator` at a concrete validator
set. -/
theorem selectProposer_returns_validator_witness :
    ∃ a, selectProposer [("a", 3)] "s" 0 (fun _ => (1 : ℚ) / 2) = some a ∧
      0 < stakeOf [("a", 3)] a ∧
      stakeOf [("a", 3)] a ≤ ([(("a" : String), (3 : Nat))].map Prod.snd).sum ∧
      walkSteps [("a", 3)]
        ((fun _ : String => (1 : ℚ) / 2) ("s" ++ toString (0 : Nat))
          * ((([(("a" : String), (3 : Nat))]).map Prod.snd).sum : ℚ))
        (sortedAddrs [("a", 3)]) 0 ≤ ([(("a" : String), (3 : Nat))]).length :=
  selectProposer_returns_validator [("a", 3)] "s" 0 (fun _ => (1 : ℚ) / 2)
    (by decide) (by decide) (by decide) (by norm_num) (by norm_num)

end Ain
